import Mathlib

/-!
# Verification of the lumberjack parsing engine

Shallow embedding of the core of the `lumberjack` log-parsing engine
(crate `parse`): the per-file parser (`src/parse/src/parser.rs`), the
binary-log decoder (`src/parse/src/decoder.rs`) and the build-time
pattern/event code generator (`src/parse/build.rs`), together with
theorems settling the specified properties of those components.

Modelling conventions:
* `chrono::NaiveDateTime` values are modelled as `Int` microseconds on an
  unbounded timeline; `TimeDelta::days 1` is the constant `oneDay`
  (86_400_000_000 microseconds).  Comparison and addition of `chrono`
  values correspond exactly to `Int` comparison and addition.
* Machine integers are `Nat`/`Int` with explicit reduction modulo `2^w`
  where the Rust code can wrap.
* Fallible Rust code returns `Except`.  A Rust panic (index out of
  bounds, failed `try_into`) is the distinguished outcome `DErr.panicked`.
-/

namespace Lumberjack

instance {ε α : Type} [DecidableEq ε] [DecidableEq α] : DecidableEq (Except ε α) := fun a b =>
  match a, b with
  | .error e, .error f =>
    if h : e = f then .isTrue (congrArg Except.error h)
    else .isFalse (fun hc => h (Except.error.inj hc))
  | .error _, .ok _ => .isFalse (fun hc => Except.noConfusion hc)
  | .ok _, .error _ => .isFalse (fun hc => Except.noConfusion hc)
  | .ok x, .ok y =>
    if h : x = y then .isTrue (congrArg Except.ok h)
    else .isFalse (fun hc => h (Except.ok.inj hc))

/-! ## File parser (src/parse/src/parser.rs)

`Parser::parse_file` classifies the per-line parse results
(`LineResult::Ok` / `LineResult::Rollover` / `LineResult::Err`), sorts the
rollover candidates by line number and walks them with an
`additional_days` accumulator.  A line's parse result is modelled as
`Option Int`: `some ts` is a successfully parsed line whose (partial)
timestamp resolved to `base_date + time_of_day = ts`, `none` is a parse
error (the error payload is irrelevant to the emitted lines).  -/

/-- `TimeDelta::days(1)` in microseconds. -/
def oneDay : Int := 86400000000

/-- One emitted line: the `line_num` assigned by `enumerate` (the Rust
code stores `i as i32`, where `i` is the 0-based `enumerate` index) and
its timestamp. -/
abbrev PLine := Nat × Int

/-- The classification pass of `Parser::parse_file` for a
partial-timestamp platform (`full_timestamp == false`): `enumerate` the
lines, drop parse errors, and keep `(line_num, timestamp)` for the rest
(the `LineResult::Ok` / `LineResult::Rollover` split is by comparison
with the file timestamp and happens in `classifyOk` / `classifyRollover`
below). -/
def classifyLines (parsed : List (Option Int)) : List PLine :=
  parsed.enum.filterMap (fun p => p.2.map (fun ts => (p.1, ts)))

/-- The `LineResult::Ok` lines (timestamp not below the file timestamp `F`). -/
def classifyOk (F : Int) (parsed : List (Option Int)) : List PLine :=
  (classifyLines parsed).filter (fun p => decide (F ≤ p.2))

/-- The `LineResult::Rollover` candidates (timestamp strictly below `F`). -/
def classifyRollover (F : Int) (parsed : List (Option Int)) : List PLine :=
  (classifyLines parsed).filter (fun p => decide (p.2 < F))

/-- The day-rollover walk of `Parser::parse_file`:
```
let mut additional_days = TimeDelta::days(0);
for mut line in rollover_results {
    line.timestamp += additional_days;
    if line.timestamp < file.timestamp {
        additional_days += TimeDelta::days(1);
        line.timestamp += TimeDelta::days(1);
    }
    ok_results.push(line);
}
``` -/
def rolloverWalk (F : Int) (additionalDays : Int) : List PLine → List PLine
  | [] => []
  | (n, ts) :: rest =>
    let ts := ts + additionalDays
    if ts < F then
      (n, ts + oneDay) :: rolloverWalk F (additionalDays + oneDay) rest
    else
      (n, ts) :: rolloverWalk F additionalDays rest

/-- `rollover_results.par_sort_unstable_by_key(|line| line.line_num)`:
a comparison sort keyed on `line_num`. -/
def sortByLineNum (l : List PLine) : List PLine :=
  l.insertionSort (fun a b => a.1 ≤ b.1)

/-- The lines emitted by `Parser::parse_file` for a partial-timestamp
platform: the `Ok` lines followed by the sorted, rollover-reconciled
candidates.  (`F` is `file.timestamp`; errored lines are only counted and
logged, they are never emitted.) -/
def parseFileLines (F : Int) (parsed : List (Option Int)) : List PLine :=
  classifyOk F parsed ++ rolloverWalk F 0 (sortByLineNum (classifyRollover F parsed))

/-- The property claimed of a `FileOutput`: timestamps are monotonically
non-decreasing when the emitted lines are ordered by `line_num`. -/
def MonotoneByLineNum (out : List PLine) : Prop :=
  ∀ a ∈ out, ∀ b ∈ out, a.1 ≤ b.1 → a.2 ≤ b.2

instance (out : List PLine) : Decidable (MonotoneByLineNum out) := by
  unfold MonotoneByLineNum; infer_instance

/-! ### `ParserIter` (src/parse/src/parser.rs, `impl Iterator for ParserIter`)

`ParserIter::next` returns `Some(output)` on a successful
`parse_file` and — after logging — returns `None` when `parse_file`
fails.  A `for` loop (as in the ingest driver) consumes the iterator
until the first `None`.  Each file's `parse_file` outcome is modelled as
`Option α` (`none` = the per-file error case). -/

/-- The sequence of `ParserOutput`s a consumer of `Parser::parse` sees:
iterate `ParserIter::next` until it returns `None`.  Since `next` maps a
`parse_file` error to `None`, iteration ends at the first failing file. -/
def parserIterOutputs {α : Type} : List (Option α) → List α
  | [] => []
  | none :: _ => []
  | some o :: rest => o :: parserIterOutputs rest

/-! ### Helper lemmas about the rollover walk -/

/-- Once `additional_days` has reached one day, every remaining rollover
candidate (whose raw timestamp lies in the base day, below `F`) simply
gets one day added: `ts + oneDay` can never be below `F` again. -/
theorem rolloverWalk_oneDay {D F : Int} (hF : F < D + oneDay) :
    ∀ l : List PLine, (∀ p ∈ l, D ≤ p.2 ∧ p.2 < F) →
      rolloverWalk F oneDay l = l.map (fun p => (p.1, p.2 + oneDay)) := by
  intro l
  induction l with
  | nil => intro _; rfl
  | cons hd tl ih =>
    intro h
    obtain ⟨hD, _⟩ := h hd (List.mem_cons_self hd tl)
    have hnot : ¬ hd.2 + oneDay < F := by omega
    simp only [rolloverWalk, List.map_cons]
    rw [if_neg hnot]
    rw [ih (fun p hp => h p (List.mem_cons_of_mem hd hp))]

/-- Starting from `additional_days = 0`, the walk adds exactly one day to
every rollover candidate. -/
theorem rolloverWalk_zero {D F : Int} (hF : F < D + oneDay) :
    ∀ l : List PLine, (∀ p ∈ l, D ≤ p.2 ∧ p.2 < F) →
      rolloverWalk F 0 l = l.map (fun p => (p.1, p.2 + oneDay)) := by
  intro l h
  cases l with
  | nil => rfl
  | cons hd tl =>
    obtain ⟨_, hlt⟩ := h hd (List.mem_cons_self hd tl)
    have hlt' : hd.2 + 0 < F := by omega
    simp only [rolloverWalk, List.map_cons]
    rw [if_pos hlt']
    have : hd.2 + 0 + oneDay = hd.2 + oneDay := by ring
    rw [this, zero_add]
    rw [rolloverWalk_oneDay hF tl (fun p hp => h p (List.mem_cons_of_mem hd hp))]

/-- The walk never changes line numbers. -/
theorem rolloverWalk_map_fst (F a : Int) :
    ∀ l : List PLine, (rolloverWalk F a l).map Prod.fst = l.map Prod.fst := by
  intro l
  induction l generalizing a with
  | nil => rfl
  | cons hd tl ih =>
    simp only [rolloverWalk]
    by_cases h : hd.2 + a < F
    · rw [if_pos h]; simp [ih]
    · rw [if_neg h]; simp [ih]

theorem sortByLineNum_perm (l : List PLine) : (sortByLineNum l).Perm l :=
  List.perm_insertionSort _ l

theorem mem_sortByLineNum {l : List PLine} {p : PLine} :
    p ∈ sortByLineNum l ↔ p ∈ l :=
  (sortByLineNum_perm l).mem_iff

theorem mem_classifyOk {F : Int} {parsed : List (Option Int)} {p : PLine} :
    p ∈ classifyOk F parsed ↔ p ∈ classifyLines parsed ∧ F ≤ p.2 := by
  simp [classifyOk, List.mem_filter]

theorem mem_classifyRollover {F : Int} {parsed : List (Option Int)} {p : PLine} :
    p ∈ classifyRollover F parsed ↔ p ∈ classifyLines parsed ∧ p.2 < F := by
  simp [classifyRollover, List.mem_filter]

/-- Characterization of the emitted lines: each comes from a classified
line, either unchanged (timestamp at or above `F`) or shifted by one day
(timestamp below `F`), provided all classified timestamps lie in the base
day `[D, D + oneDay)` and `F < D + oneDay`. -/
theorem mem_parseFileLines {D F : Int} {parsed : List (Option Int)}
    (hF : F < D + oneDay)
    (hD : ∀ p ∈ classifyLines parsed, D ≤ p.2 ∧ p.2 < D + oneDay)
    {p : PLine} (hp : p ∈ parseFileLines F parsed) :
    (p ∈ classifyLines parsed ∧ F ≤ p.2) ∨
      (∃ q ∈ classifyLines parsed, q.2 < F ∧ p = (q.1, q.2 + oneDay)) := by
  have hbound : ∀ q ∈ sortByLineNum (classifyRollover F parsed), D ≤ q.2 ∧ q.2 < F := by
    intro q hq
    have hq' := mem_sortByLineNum.mp hq
    obtain ⟨hcl, hlt⟩ := mem_classifyRollover.mp hq'
    exact ⟨(hD q hcl).1, hlt⟩
  rw [parseFileLines, List.mem_append] at hp
  rcases hp with h | h
  · exact Or.inl (mem_classifyOk.mp h)
  · rw [rolloverWalk_zero hF _ hbound, List.mem_map] at h
    obtain ⟨q, hq, hpq⟩ := h
    obtain ⟨hcl, hlt⟩ := mem_classifyRollover.mp (mem_sortByLineNum.mp hq)
    exact Or.inr ⟨q, hcl, hlt, hpq.symm⟩

/-! ### Theorems for C1 -/

/-- C1 (counterexample): day-rollover reconciliation does **not** make
timestamps monotone by `line_num` for every file.  With file timestamp
`F = D 23:59:58` (`D = 0`) and three lines parsing to times-of-day
`23:59:59.000`, `00:00:00.500`, `23:59:58.500`, only the second line is a
rollover candidate; the third stays in the base day and the emitted
timestamps, ordered by `line_num`, go `23:59:59.000`, `00:00:00.500 + 1d`,
`23:59:58.500` — decreasing at the last step. -/
theorem c1_counterexample :
    ¬ MonotoneByLineNum
      (parseFileLines 86398000000 [some 86399000000, some 500000, some 86398500000]) := by
  decide

/-- C1 (amended): for a partial-timestamp platform the emitted timestamps
are monotonically non-decreasing by `line_num` **provided** the parsed
timestamps all lie in the file's base day `[D, D + 1day)` (with the file
timestamp `F` in the same day), lines below `F` form a suffix in
line-number order (at most one midnight crossing), and timestamps are
non-decreasing within the pre-midnight and post-midnight runs. -/
theorem c1_rollover_monotone (D F : Int) (parsed : List (Option Int))
    (hF : D ≤ F ∧ F < D + oneDay)
    (hD : ∀ p ∈ classifyLines parsed, D ≤ p.2 ∧ p.2 < D + oneDay)
    (hcross : ∀ p ∈ classifyLines parsed, ∀ q ∈ classifyLines parsed,
      p.1 ≤ q.1 → p.2 < F → q.2 < F)
    (hmono : ∀ p ∈ classifyLines parsed, ∀ q ∈ classifyLines parsed,
      p.1 ≤ q.1 → ((F ≤ p.2 ∧ F ≤ q.2) ∨ (p.2 < F ∧ q.2 < F)) → p.2 ≤ q.2) :
    MonotoneByLineNum (parseFileLines F parsed) := by
  intro a ha b hb hab
  rcases mem_parseFileLines hF.2 hD ha with ⟨hacl, haF⟩ | ⟨qa, hqa, hqaF, haeq⟩ <;>
    rcases mem_parseFileLines hF.2 hD hb with ⟨hbcl, hbF⟩ | ⟨qb, hqb, hqbF, hbeq⟩
  · exact hmono a hacl b hbcl hab (Or.inl ⟨haF, hbF⟩)
  · -- `a` stayed in the base day, `b` was shifted by one day
    have h1 : a.2 < D + oneDay := (hD a hacl).2
    have h2 : D ≤ qb.2 := (hD qb hqb).1
    have : b.2 = qb.2 + oneDay := by rw [hbeq]
    omega
  · -- `a` was shifted, `b` was not: contradicts the single-crossing hypothesis
    have h1 : a.1 = qa.1 := by rw [haeq]
    have hblt : b.2 < F := hcross qa hqa b hbcl (by omega) hqaF
    omega
  · have h1 : a.1 = qa.1 := by rw [haeq]
    have h2 : b.1 = qb.1 := by rw [hbeq]
    have h3 : a.2 = qa.2 + oneDay := by rw [haeq]
    have h4 : b.2 = qb.2 + oneDay := by rw [hbeq]
    have := hmono qa hqa qb hqb (by omega) (Or.inr ⟨hqaF, hqbF⟩)
    omega

/-- C1 (witness): the amended theorem applied to the spec's own day
rollover scenario (§8 scenario 4): `F = D 23:59:58`, lines `23:59:59.000`,
`00:00:00.500`, `00:00:01.000`. -/
theorem c1_rollover_monotone_witness :
    MonotoneByLineNum
      (parseFileLines 86398000000 [some 86399000000, some 500000, some 1000000]) :=
  c1_rollover_monotone 0 86398000000 [some 86399000000, some 500000, some 1000000]
    (by decide) (by decide) (by decide) (by decide)

/-! ### Theorems for C2 -/

theorem classifyAux_map_fst :
    ∀ (parsed : List (Option Int)) (n : Nat), (∀ o ∈ parsed, o.isSome) →
      ((List.enumFrom n parsed).filterMap
        (fun p => p.2.map (fun ts => (p.1, ts)))).map Prod.fst = List.range' n parsed.length := by
  intro parsed
  induction parsed with
  | nil => intro n _; rfl
  | cons o rest ih =>
    intro n h
    obtain ⟨ts, rfl⟩ := Option.isSome_iff_exists.mp (h o (List.mem_cons_self o rest))
    simp only [List.enumFrom, List.filterMap_cons, Option.map_some', List.map_cons,
      List.length_cons, List.range'_succ]
    rw [ih (n + 1) (fun o' ho' => h o' (List.mem_cons_of_mem _ ho'))]

theorem classifyLines_map_fst {parsed : List (Option Int)} (h : ∀ o ∈ parsed, o.isSome) :
    (classifyLines parsed).map Prod.fst = List.range parsed.length := by
  rw [classifyLines, List.enum, classifyAux_map_fst parsed 0 h, List.range_eq_range']

/-- C2 (counterexample): emitted `line_num`s are **not** 1-based.  A
single-line file whose only line parses successfully emits `line_num = 0`
(the 0-based `enumerate` index stored by `parse_line`), not the set
`{1}` that claim C2 requires for `N = 1`. -/
theorem c2_counterexample :
    (parseFileLines 0 [some 0]).map Prod.fst = [0] ∧
      ¬ ([0] : List Nat).Perm [1] := by
  constructor
  · decide
  · decide

/-- C2 (amended): emitted `line_num`s are 0-based: each emitted line
carries the 0-based index of its input line, lines failing to parse are
omitted, and when every line parses the emitted `line_num`s are exactly
`{0, …, N-1}`, without gaps or duplicates (a permutation of
`List.range N`). -/
theorem c2_line_nums_zero_based (F : Int) (parsed : List (Option Int))
    (h : ∀ o ∈ parsed, o.isSome) :
    ((parseFileLines F parsed).map Prod.fst).Perm (List.range parsed.length) := by
  have hmapapp : (parseFileLines F parsed).map Prod.fst
      = (classifyOk F parsed).map Prod.fst
        ++ (sortByLineNum (classifyRollover F parsed)).map Prod.fst := by
    simp [parseFileLines, rolloverWalk_map_fst]
  have hroll : classifyRollover F parsed
      = (classifyLines parsed).filter (fun x => !decide (F ≤ x.2)) := by
    unfold classifyRollover
    apply List.filter_congr
    intro a _
    by_cases hc : F ≤ a.2
    · simp [hc, not_lt.mpr hc]
    · simp [hc, not_le.mp hc]
  have p1 : ((sortByLineNum (classifyRollover F parsed)).map Prod.fst).Perm
      ((classifyRollover F parsed).map Prod.fst) :=
    (sortByLineNum_perm _).map _
  have p3 : (classifyOk F parsed ++ classifyRollover F parsed).Perm (classifyLines parsed) := by
    rw [hroll]
    exact List.filter_append_perm _ _
  rw [hmapapp]
  refine (List.Perm.append_left _ p1).trans ?_
  rw [← List.map_append, ← classifyLines_map_fst h]
  exact p3.map _

/-- C2 (witness): a two-line file whose lines both parse emits exactly
the line numbers `{0, 1}`. -/
theorem c2_line_nums_zero_based_witness :
    (∀ o ∈ [some (5 : Int), some 3], o.isSome) ∧
      ((parseFileLines 0 [some (5 : Int), some 3]).map Prod.fst).Perm (List.range 2) :=
  ⟨by decide, c2_line_nums_zero_based 0 [some 5, some 3] (by decide)⟩

/-! ### Theorem for C3 -/

/-- C3 (code behavior at the failing input): when the first file's
`parse_file` fails (`none`) and the second succeeds with output `42`,
the iteration yields no output at all — `ParserIter::next` maps the
error to `None`, which terminates iteration, so the later file is never
parsed.  By contrast, a trailing failure still yields the earlier
outputs. -/
theorem c3_error_stops_iteration :
    parserIterOutputs [none, some (42 : Nat)] = [] ∧
      parserIterOutputs [some (42 : Nat), none] = [42] :=
  ⟨rfl, rfl⟩

/-! ## Binary decoder (src/parse/src/decoder.rs)

The decoder is a sequential state machine over a byte stream.  The
state is `DecState`: the remaining input bytes, the count of bytes
consumed so far (the `stream_position`), and the dictionaries.  Errors
are `DErr`; a Rust panic (index out of bounds, failed `try_into`) is the
distinguished outcome `DErr.panicked`, and `DErr.fuelExhausted` marks
fuel exhaustion of the two fuelled loops, both of which are run with
enough fuel that it is unreachable (each iteration strictly consumes
fuel alongside at least one unit of its measure). -/

inductive DErr where
  /-- `Error::InvalidBinaryLogs(message, stream_offset)` -/
  | invalidBinary : String → Nat → DErr
  /-- `Error::InvalidVarint` -/
  | invalidVarint : DErr
  /-- `Error::Io` — a failed read (EOF) escaping without being wrapped -/
  | ioError : DErr
  /-- a Rust panic: out-of-bounds index or failed `try_into` -/
  | panicked : DErr
  /-- fuel exhaustion of the embedding's fuelled loops (unreachable) -/
  | fuelExhausted : DErr
deriving DecidableEq, Repr

structure DecState where
  /-- remaining input bytes (each < 256) -/
  bytes : List Nat
  /-- bytes consumed so far = `reader.stream_position()` -/
  pos : Nat
  ptrSize : Nat
  startTimeSec : Int
  elapsedTicks : Nat
  tokens : List String
  /-- `objects: BTreeMap<u64, String>` as a sorted association list -/
  objects : List (Nat × String)
deriving DecidableEq, Repr

/-- `ReadByte::read_byte` at the `io` level: one byte or an EOF error. -/
def readByteIo (st : DecState) : Except DErr (Nat × DecState) :=
  match st.bytes with
  | [] => .error .ioError
  | b :: rest => .ok (b, { st with bytes := rest, pos := st.pos + 1 })

/-- `Read::read_exact` of `n` bytes: all-or-nothing. -/
def readExactIo : Nat → DecState → Except DErr (List Nat × DecState)
  | 0, st => .ok ([], st)
  | n + 1, st =>
    match readByteIo st with
    | .error e => .error e
    | .ok (b, st') =>
      match readExactIo n st' with
      | .error e => .error e
      | .ok (bs, st'') => .ok (b :: bs, st'')

/-- `Display` of the error values reaching `Decoder::map_err` (which
stringifies the underlying error): an EOF `std::io::Error` displays as
`failed to fill whole buffer` inside the crate's `IO Error {0}` wrapper,
`Error::InvalidVarint` as its `thiserror` message. -/
def derrMsg : DErr → String
  | .ioError => "IO Error failed to fill whole buffer"
  | .invalidVarint => "Invalid varint in binary logs"
  | .invalidBinary m _ => m
  | .panicked => "panicked"
  | .fuelExhausted => "fuel exhausted"

/-- `Decoder::map_err`/`create_err`: wrap an error into
`InvalidBinaryLogs(err.to_string(), stream_position())`, called with the
state from before the failing read.  Failure positions: an EOF read ends
with the stream drained (`pos + bytes.length`); an over-long varint
consumed 10 bytes; re-wrapping an already wrapped error (as
`read_string` does with `read_byte`'s) stringifies it again via the
`Invalid binary logs: '{0}' at {1}` display. -/
def mapToInvalid (st : DecState) : DErr → DErr
  | .ioError => .invalidBinary (derrMsg .ioError) (st.pos + st.bytes.length)
  | .invalidVarint => .invalidBinary (derrMsg .invalidVarint) (st.pos + 10)
  | .invalidBinary m p =>
    .invalidBinary ("Invalid binary logs: '" ++ m ++ "' at " ++ toString p) st.pos
  | e => e

def U64MOD : Nat := 18446744073709551616

/-- The loop body of `varint::read` (`MAX_LEN = 10`): little-endian
base-128 with continuation bit `0x80`; the `u64` accumulator wraps. -/
def varintReadLoop : Nat → Nat → Nat → DecState → Except DErr (Nat × DecState)
  | 0, _, _, _ => .error .invalidVarint
  | fuel + 1, i, res, st =>
    match readByteIo st with
    | .error e => .error e
    | .ok (b, st') =>
      let res' := res ||| ((b &&& 127) <<< (7 * i)) % U64MOD
      if b < 128 then .ok (res', st') else varintReadLoop fuel (i + 1) res' st'

/-- `varint::read`: errors are the raw `Error::Io` / `Error::InvalidVarint`
(callers decide whether to wrap them). -/
def varintRead (st : DecState) : Except DErr (Nat × DecState) :=
  varintReadLoop 10 0 0 st

def TICKS_PER_SECOND : Nat := 1000000

/-- `Decoder::read_timestamp`: add a varint delta to `elapsed_ticks`
(wrapping `u64` addition) and return `start_time + seconds + micros`,
i.e. `startTimeSec * 10^6 + elapsed_ticks` microseconds.  Varint errors
are wrapped by `map_err`. -/
def readTimestamp (st : DecState) : Except DErr (Int × DecState) :=
  match varintRead st with
  | .error e => .error (mapToInvalid st e)
  | .ok (d, st') =>
    let ticks := (st'.elapsedTicks + d) % U64MOD
    let st'' := { st' with elapsedTicks := ticks }
    .ok (st''.startTimeSec * (TICKS_PER_SECOND : Int) + (ticks : Int), st'')

/-- `Decoder::read_byte` (the decoder method, which wraps errors). -/
def readByteD (st : DecState) : Except DErr (Nat × DecState) :=
  match readByteIo st with
  | .error e => .error (mapToInvalid st e)
  | .ok r => .ok r

def LEVEL_NAMES : List String := ["Debug", "Verbose", "Info", "Warning", "Error"]

/-- `byte as i8` (bytes are < 256). -/
def i8OfByte (b : Nat) : Int :=
  if b < 128 then (b : Int) else (b : Int) - 256

/-- The level step of `Decoder::read_entry` (decoder.rs:107-115):
```
let level = self.read_byte()? as i8;
let level = if level > 0 {
    LEVEL_NAMES.get(level as usize).ok_or_else(|| ...)?
} else { "" };
``` -/
def readLevel (st : DecState) : Except DErr (String × DecState) :=
  match readByteD st with
  | .error e => .error e
  | .ok (b, st') =>
    let level : Int := i8OfByte b
    if level > 0 then
      match LEVEL_NAMES.get? level.toNat with
      | some name => .ok (name, st')
      | none =>
        .error (.invalidBinary
          ("No known log level with discriminant " ++ toString level) st'.pos)
    else
      .ok ("", st')

/-- `Decoder::read_string`: read bytes until a null terminator, pushing
each as a `char`.  `read_byte`'s (already wrapped) errors are wrapped a
second time by `read_string`'s own `map_err`. -/
def readStringGo : Nat → DecState → String → Except DErr (String × DecState)
  | 0, _, _ => .error .fuelExhausted
  | fuel + 1, st, acc =>
    match st.bytes with
    | [] => .error (mapToInvalid st (mapToInvalid st .ioError))
    | b :: rest =>
      let st' : DecState := { st with bytes := rest, pos := st.pos + 1 }
      if b = 0 then .ok (acc, st')
      else readStringGo fuel st' (acc.push (Char.ofNat b))

/-- Every iteration consumes one byte, so `fuel = bytes.length + 1`
cannot run out. -/
def readString (st : DecState) : Except DErr (String × DecState) :=
  readStringGo (st.bytes.length + 1) st ""

/-- `Decoder::read_tokenized_string` (decoder.rs:284-295). -/
def readTokenizedString (st : DecState) : Except DErr (String × DecState) :=
  match varintRead st with
  | .error e => .error (mapToInvalid st e)
  | .ok (id, st') =>
    if h : id < st'.tokens.length then
      .ok (st'.tokens.get ⟨id, h⟩, st')
    else if id = st'.tokens.length then
      match readString st' with
      | .error e => .error e
      | .ok (s, st'') => .ok (s, { st'' with tokens := st''.tokens ++ [s] })
    else
      .error (.invalidBinary "Invalid token string ID!" st'.pos)

/-- `BTreeMap::get` on the sorted association list. -/
def objFind (objects : List (Nat × String)) (id : Nat) : Option String :=
  (objects.find? (fun p => p.1 == id)).map Prod.snd

/-- `BTreeMap::insert` on the sorted association list. -/
def objInsert (id : Nat) (s : String) : List (Nat × String) → List (Nat × String)
  | [] => [(id, s)]
  | (k, v) :: rest =>
    if id < k then (id, s) :: (k, v) :: rest
    else if id = k then (id, s) :: rest
    else (k, v) :: objInsert id s rest

/-- `Decoder::read_object`: varint id; 0 means no object; otherwise the
dictionary entry, interning a freshly read string on a miss. -/
def readObject (st : DecState) : Except DErr (Option String × DecState) :=
  match varintRead st with
  | .error e => .error (mapToInvalid st e)
  | .ok (id, st') =>
    if id = 0 then .ok (none, st')
    else
      match objFind st'.objects id with
      | some s => .ok (some s, st')
      | none =>
        match readString st' with
        | .error e => .error e
        | .ok (s, st'') => .ok (some s, { st'' with objects := objInsert id s st''.objects })

/-! ### Message replay (`Decoder::read_message`, decoder.rs:131-249)

The walk over `format_chars` indexes the char vector directly
(`format_chars[i]`), so every access is modelled as a dependent bounds
check whose out-of-range branch is the panic outcome. -/

def flagChars : List Char := ['#', '0', '-', ' ', '+', '\'']

/-- `while "#0- +'".contains(format_chars[i]) { i += 1 }` — the access
precedes the test, so running off the end panics.  `i` increases every
iteration and the loop exits once `i` reaches the length, so the fuel
`cs.length + 1` supplied by the wrapper below cannot run out. -/
def skipFlagsGo : Nat → List Char → Nat → Except DErr Nat
  | 0, _, _ => .error .fuelExhausted
  | fuel + 1, cs, i =>
    if h : i < cs.length then
      if cs.get ⟨i, h⟩ ∈ flagChars then skipFlagsGo fuel cs (i + 1) else .ok i
    else .error .panicked

def skipFlags (cs : List Char) (i : Nat) : Except DErr Nat :=
  skipFlagsGo (cs.length + 1) cs i

/-- `while format_chars[i].is_digit(10) { i += 1 }`. -/
def skipDigitsGo : Nat → List Char → Nat → Except DErr Nat
  | 0, _, _ => .error .fuelExhausted
  | fuel + 1, cs, i =>
    if h : i < cs.length then
      if (cs.get ⟨i, h⟩).isDigit then skipDigitsGo fuel cs (i + 1) else .ok i
    else .error .panicked

def skipDigits (cs : List Char) (i : Nat) : Except DErr Nat :=
  skipDigitsGo (cs.length + 1) cs i

def lengthModChars : List Char := ['h', 'l', 'j', 't', 'z', 'q']

/-- `while "hljtzq".contains(format_chars[i]) { i += 1 }`. -/
def skipLengthModsGo : Nat → List Char → Nat → Except DErr Nat
  | 0, _, _ => .error .fuelExhausted
  | fuel + 1, cs, i =>
    if h : i < cs.length then
      if cs.get ⟨i, h⟩ ∈ lengthModChars then skipLengthModsGo fuel cs (i + 1) else .ok i
    else .error .panicked

def skipLengthMods (cs : List Char) (i : Nat) : Except DErr Nat :=
  skipLengthModsGo (cs.length + 1) cs i

/-- The `.`/`.*`/precision-digits step; returns `(is_dot_star, i)`. -/
def parseDotPrec (cs : List Char) (i : Nat) : Except DErr (Bool × Nat) :=
  if h : i < cs.length then
    if cs.get ⟨i, h⟩ = '.' then
      if h' : i + 1 < cs.length then
        if cs.get ⟨i + 1, h'⟩ = '*' then .ok (true, i + 2)
        else
          match skipDigits cs (i + 1) with
          | .error e => .error e
          | .ok j => .ok (false, j)
      else .error .panicked
    else .ok (false, i)
  else .error .panicked

/-- `{:02x}`-style zero-padded lowercase hex of minimum width `w`. -/
def rustHexPad (w : Nat) (n : Nat) : String :=
  let ds := Nat.toDigits 16 n
  String.mk (List.replicate (w - ds.length) '0') ++ String.mk ds

/-- `{:#0wx}`: `0x`-prefixed lowercase hex, zero-padded to a minimum
**total** width of `w` characters — the `0x` prefix counts towards the
width, the zeros sit between the prefix and the digits. -/
def rustAltHex (w : Nat) (n : Nat) : String :=
  let ds := Nat.toDigits 16 n
  "0x" ++ String.mk (List.replicate (w - (2 + ds.length)) '0') ++ String.mk ds

/-- Little-endian byte-list value. -/
def leNat : List Nat → Nat
  | [] => 0
  | b :: rest => b + 256 * leNat rest

def I64MAX : Nat := 9223372036854775807

/-- `f64::from_le_bytes` + `Display`: IEEE-754 decoding and decimal
rendering are floating-point and outside the shallow embedding; the
rendered text is abstracted as a placeholder (the eight bytes are still
consumed).  No claim touches the text of a float conversion. -/
def floatDisplay (bs : List Nat) : String := "<f64 " ++ toString bs ++ ">"

/-- One conversion arm of `read_message`'s `match c` (decoder.rs:182-244),
returning the text to append and the post-read state.  The `varint::read`
and `read_exact` calls inside the arms propagate their raw errors with
`?` (they are **not** wrapped by `map_err`); only `read_byte` (for
`c`/`d`/`i`) and the unknown-specifier arm produce `InvalidBinaryLogs`. -/
def applyConv (c : Char) (isMinus isDotStar : Bool) (st : DecState) :
    Except DErr (String × DecState) :=
  if c = 'c' ∨ c = 'd' ∨ c = 'i' then
    match readByteD st with
    | .error e => .error e
    | .ok (nb, st₁) =>
      let isNegative := nb > 0
      match varintRead st₁ with
      | .error e => .error e
      | .ok (v, st₂) =>
        if v > I64MAX then .error .panicked   -- `try_into().expect(..)`
        else
          let value : Int := if isNegative then -(v : Int) else (v : Int)
          if c = 'c' then .ok (String.mk [Char.ofNat (value.emod 256).toNat], st₂)
          else .ok (toString value, st₂)
  else if c = 'x' ∨ c = 'X' then
    match varintRead st with
    | .error e => .error e
    | .ok (v, st₁) => .ok (rustHexPad 2 v, st₁)
  else if c = 'u' then
    match varintRead st with
    | .error e => .error e
    | .ok (v, st₁) => .ok (toString v, st₁)
  else if c = 'e' ∨ c = 'E' ∨ c = 'f' ∨ c = 'F' ∨ c = 'g' ∨ c = 'G' ∨ c = 'a' ∨ c = 'A' then
    match readExactIo 8 st with
    | .error e => .error e
    | .ok (bs, st₁) => .ok (floatDisplay bs, st₁)
  else if (c = '@' ∨ c = 's') ∧ isMinus ∧ ¬ isDotStar then
    readTokenizedString st
  else if c = '@' ∨ c = 's' then
    match varintRead st with
    | .error e => .error e
    | .ok (n, st₁) =>
      match readExactIo n st₁ with
      | .error e => .error e
      | .ok (bs, st₂) =>
        if isMinus then .ok (String.join (bs.map (fun b => rustHexPad 2 b)), st₂)
        else .ok (String.mk (bs.map Char.ofNat), st₂)
  else if c = 'p' ∧ st.ptrSize = 8 then
    match readExactIo 8 st with
    | .error e => .error e
    | .ok (bs, st₁) => .ok (rustAltHex 16 (leNat bs), st₁)
  else if c = 'p' ∧ st.ptrSize = 4 then
    match readExactIo 4 st with
    | .error e => .error e
    | .ok (bs, st₁) => .ok (rustAltHex 8 (leNat bs), st₁)
  else if c = '%' then
    .ok ("%", st)
  else
    .error (.invalidBinary ("Unknown format specifier '" ++ String.mk [c] ++ "'") st.pos)

/-- The `while i < format_chars.len()` walk of `read_message`.  `i`
strictly increases on every iteration, so `fuel = cs.length + 1` (as
supplied by `readMessage`) can never run out. -/
def walkFormat : Nat → List Char → Nat → DecState → String → Except DErr (String × DecState)
  | 0, _, _, _, _ => .error .fuelExhausted
  | fuel + 1, cs, i, st, acc =>
    if h : i < cs.length then
      let c := cs.get ⟨i, h⟩
      if c.toNat = 0 then .ok (acc, st)
      else if c ≠ '%' then walkFormat fuel cs (i + 1) st (acc.push c)
      else
        if h1 : i + 1 < cs.length then
          let isMinus := cs.get ⟨i + 1, h1⟩ = '-'
          let i1 := if isMinus then i + 2 else i + 1
          match skipFlags cs i1 with
          | .error e => .error e
          | .ok i2 =>
            match skipDigits cs i2 with
            | .error e => .error e
            | .ok i3 =>
              match parseDotPrec cs i3 with
              | .error e => .error e
              | .ok (isDotStar, i4) =>
                match skipLengthMods cs i4 with
                | .error e => .error e
                | .ok i5 =>
                  if h5 : i5 < cs.length then
                    match applyConv (cs.get ⟨i5, h5⟩) isMinus isDotStar st with
                    | .error e => .error e
                    | .ok (txt, st') => walkFormat fuel cs (i5 + 1) st' (acc ++ txt)
                  else .error .panicked
        else .error .panicked   -- format_chars[i + 1] out of bounds
    else .ok (acc, st)          -- while loop exit: i reached the length

/-- `Decoder::read_message`: fetch the format string (tokenized), then
replay it. -/
def readMessage (st : DecState) : Except DErr (String × DecState) :=
  match readTokenizedString st with
  | .error e => .error e
  | .ok (fmt, st') => walkFormat (fmt.data.length + 1) fmt.data 0 st' ""

structure DecoderEntry where
  timestamp : Int
  domain : String
  level : String
  object : Option String
  message : String
deriving DecidableEq, Repr

/-- `Decoder::read_entry` (decoder.rs:102-129).  The leading
`read_timestamp` failure is caught by the `let Ok(..) else` and turned
into `Ok(None)` — the end-of-stream signal; every later failure
propagates. -/
def readEntry (st : DecState) : Except DErr (Option (DecoderEntry × DecState)) :=
  match readTimestamp st with
  | .error _ => .ok none
  | .ok (ts, st₁) =>
    match readLevel st₁ with
    | .error e => .error e
    | .ok (lv, st₂) =>
      match readTokenizedString st₂ with
      | .error e => .error e
      | .ok (dom, st₃) =>
        match readObject st₃ with
        | .error e => .error e
        | .ok (obj, st₄) =>
          match readMessage st₄ with
          | .error e => .error e
          | .ok (msg, st₅) =>
            .ok (some (⟨ts, dom, lv, obj, msg⟩, st₅))

/-- `Decoder::entries` consumed through `collect::<Result<Vec<_>>>` (as
`decode_lines` does): entries until `Ok(None)`, stopping at the first
error.  Each successful entry consumes at least one byte (its timestamp
varint), so `fuel = bytes.length + 1` can never run out. -/
def decodeEntriesLoop : Nat → DecState → Except DErr (List DecoderEntry)
  | 0, _ => .error .fuelExhausted
  | fuel + 1, st =>
    match readEntry st with
    | .error e => .error e
    | .ok none => .ok []
    | .ok (some (e, st')) =>
      match decodeEntriesLoop fuel st' with
      | .error err => .error err
      | .ok rest => .ok (e :: rest)

/-! ### Header (`Decoder::new`, decoder.rs:48-87) -/

def MAGIC_NUMBER : List Nat := [207, 178, 171, 27]

/-- Days from the civil epoch 1970-01-01 in the proleptic Gregorian
calendar (Hinnant's `days_from_civil`), used to reproduce `chrono`'s
representable-date range. -/
def daysFromCivil (y m d : Int) : Int :=
  let y' := if m ≤ 2 then y - 1 else y
  let era := Int.fdiv y' 400
  let yoe := y' - era * 400
  let mp := if m > 2 then m - 3 else m + 9
  let doy := Int.fdiv (153 * mp + 2) 5 + d - 1
  let doe := yoe * 365 + Int.fdiv yoe 4 - Int.fdiv yoe 100 + doy
  era * 146097 + doe - 719468

/-- `chrono::DateTime::from_timestamp(secs, 0)` succeeds iff the day of
`secs` lies within `NaiveDate::MIN` (-262143-01-01) ..= `NaiveDate::MAX`
(262142-12-31). -/
def fromTimestampValid (s : Int) : Bool :=
  daysFromCivil (-262143) 1 1 ≤ Int.fdiv s 86400 ∧
    Int.fdiv s 86400 ≤ daysFromCivil 262142 12 31

def I64MODHALF : Nat := 9223372036854775808

/-- `u64 as i64`. -/
def i64OfU64 (v : Nat) : Int :=
  if v < I64MODHALF then (v : Int) else (v : Int) - (U64MOD : Int)

/-- `Decoder::new`: magic, format version 1, pointer size 4 or 8, varint
start time (epoch seconds).  `read_exact` and `varint::read` failures
propagate raw (`?` without `map_err`). -/
def decoderNew (input : List Nat) : Except DErr DecState :=
  let st0 : DecState :=
    { bytes := input, pos := 0, ptrSize := 0, startTimeSec := 0,
      elapsedTicks := 0, tokens := [], objects := [] }
  match readExactIo 6 st0 with
  | .error e => .error e
  | .ok (hdr, st₁) =>
    if hdr.take 4 ≠ MAGIC_NUMBER then .error (.invalidBinary "Invalid header" 0)
    else if hdr.getD 4 0 ≠ 1 then
      .error (.invalidBinary
        ("Unsupported format version '" ++ toString (hdr.getD 4 0) ++ "', expected '1'") 0)
    else
      let ptr := hdr.getD 5 0
      if ptr ≠ 4 ∧ ptr ≠ 8 then .error (.invalidBinary "Invalid header" 0)
      else
        match varintRead st₁ with
        | .error e => .error e
        | .ok (v, st₂) =>
          let s := i64OfU64 v
          if fromTimestampValid s then
            .ok { st₂ with ptrSize := ptr, startTimeSec := s }
          else .error (.invalidBinary "Invalid timestamp in header" 0)

/-- `decode_lines` up to entry granularity: parse the header, then
stream entries. -/
def decodeEntries (input : List Nat) : Except DErr (List DecoderEntry) :=
  match decoderNew input with
  | .error e => .error e
  | .ok st => decodeEntriesLoop (st.bytes.length + 1) st

/-! ### Decoder theorems -/

/-- A fresh decoder state (pointer size 8) over the given bytes. -/
def stOfBytes (bs : List Nat) : DecState :=
  { bytes := bs, pos := 0, ptrSize := 8, startTimeSec := 0,
    elapsedTicks := 0, tokens := [], objects := [] }

theorem varintReadLoop_tokens :
    ∀ (fuel i res : Nat) (st : DecState) (id : Nat) (st' : DecState),
      varintReadLoop fuel i res st = .ok (id, st') → st'.tokens = st.tokens := by
  intro fuel
  induction fuel with
  | zero => intro i res st id st' h; simp [varintReadLoop] at h
  | succ fuel ih =>
    intro i res st id st' h
    rw [varintReadLoop] at h
    match hb : st.bytes with
    | [] => rw [readByteIo, hb] at h; simp at h
    | b :: rest =>
      rw [readByteIo, hb] at h
      simp only at h
      by_cases hlt : b < 128
      · rw [if_pos hlt] at h
        cases h
        rfl
      · rw [if_neg hlt] at h
        have h2 := ih _ _ _ _ _ h
        simpa using h2

theorem varintRead_tokens {st : DecState} {id : Nat} {st' : DecState}
    (h : varintRead st = .ok (id, st')) : st'.tokens = st.tokens :=
  varintReadLoop_tokens 10 0 0 st id st' h

/-! ### Theorems for C5 -/

/-- C5 (counterexample): a level byte of `1` does **not** select
`Debug`.  `read_entry` indexes `LEVEL_NAMES.get(level as usize)` with
the raw (1-based) discriminant into the 0-based array, so `1` selects
`"Verbose"`; and a level byte of `5` is not `"Error"` but an
`InvalidBinaryLogs` error (`LEVEL_NAMES.get(5)` is out of range). -/
theorem c5_counterexample :
    readLevel (stOfBytes [1])
        = .ok ("Verbose", { stOfBytes [] with pos := 1 }) ∧
      readLevel (stOfBytes [5])
        = .error (.invalidBinary "No known log level with discriminant 5" 1) ∧
      "Verbose" ≠ "Debug" :=
  ⟨rfl, rfl, by decide⟩

/-- C5 (amended): for a level byte whose signed (`i8`) value `v`:
`v ≤ 0` yields the empty level; `1 ≤ v ≤ 4` selects `LEVEL_NAMES[v]`
(the (v+1)-th name, i.e. `Verbose`, `Info`, `Warning`, `Error`); and
`5 ≤ v` (≤ 127) fails with an `InvalidBinaryLogs` error naming the
discriminant. -/
theorem c5_level_byte (st : DecState) (b : Nat) (st' : DecState)
    (h : readByteD st = .ok (b, st')) :
    (i8OfByte b ≤ 0 → readLevel st = .ok ("", st')) ∧
      (1 ≤ i8OfByte b → i8OfByte b ≤ 4 →
        readLevel st = .ok (LEVEL_NAMES.getD (i8OfByte b).toNat "", st')) ∧
      (5 ≤ i8OfByte b →
        readLevel st = .error (.invalidBinary
          ("No known log level with discriminant " ++ toString (i8OfByte b)) st'.pos)) := by
  refine ⟨?_, ?_, ?_⟩
  · intro hle
    rw [readLevel, h]
    simp only
    rw [if_neg (by omega)]
  · intro h1 h4
    rw [readLevel, h]
    simp only
    rw [if_pos (by omega)]
    have hn1 : 1 ≤ (i8OfByte b).toNat := by omega
    have hn4 : (i8OfByte b).toNat ≤ 4 := by omega
    set n := (i8OfByte b).toNat with hn
    interval_cases n <;> simp [LEVEL_NAMES, ← hn]
  · intro h5
    rw [readLevel, h]
    simp only
    rw [if_pos (by omega)]
    have hge : 5 ≤ (i8OfByte b).toNat := by omega
    rw [List.get?_eq_none.mpr (by simpa [LEVEL_NAMES] using hge)]

/-- C5 (witness): the amended theorem at level byte `3`, which selects
`LEVEL_NAMES[3] = "Warning"`. -/
theorem c5_level_byte_witness :
    readLevel (stOfBytes [3]) = .ok (LEVEL_NAMES.getD 3 "", { stOfBytes [] with pos := 1 }) :=
  (c5_level_byte (stOfBytes [3]) 3 { stOfBytes [] with pos := 1 } rfl).2.1
    (by decide) (by decide)

/-! ### Theorems for C6 -/

/-- C6 (counterexample): a read failure while reading an entry's leading
timestamp-delta varint is treated as a normal end of stream, not as an
`InvalidBinaryLogs` error.  A stream holding one complete entry followed
by a single `0x80` continuation byte (a varint truncated by EOF — a read
failure) decodes to `Ok` with that one entry; and `read_entry` on the
truncated tail alone yields `Ok(None)` (normal end). -/
theorem c6_counterexample :
    decodeEntries [207, 178, 171, 27, 1, 8, 0, 0, 2, 0, 68, 66, 0, 0, 1, 104, 105, 0, 128]
        = .ok [⟨0, "DB", "Info", none, "hi"⟩] ∧
      readEntry { stOfBytes [128] with pos := 18 } = .ok none :=
  ⟨rfl, rfl⟩

/-- C6 (amended): a failure of the leading timestamp read ends decoding
as a normal end of stream (`Ok(None)`); a read failure **after** it does
terminate the decode with an error — e.g. hitting EOF at the level byte
yields `InvalidBinaryLogs` with the EOF reason. -/
theorem c6_timestamp_failure_is_eof (st : DecState) :
    (∀ e, readTimestamp st = .error e → readEntry st = .ok none) ∧
      (∀ ts st₁, readTimestamp st = .ok (ts, st₁) → st₁.bytes = [] →
        readEntry st = .error (.invalidBinary (derrMsg .ioError) st₁.pos)) := by
  constructor
  · intro e he
    rw [readEntry, he]
  · intro ts st₁ hok hb
    rw [readEntry, hok]
    simp [readLevel, readByteD, readByteIo, hb, mapToInvalid, derrMsg]

/-- C6 (witness): the amended theorem at a concrete stream: an empty
stream ends decoding normally, and a stream whose single entry is just
the byte `0` (timestamp delta zero, then EOF at the level byte) errors. -/
theorem c6_timestamp_failure_is_eof_witness :
    readEntry (stOfBytes []) = .ok none ∧
      readEntry (stOfBytes [0])
        = .error (.invalidBinary (derrMsg .ioError) 1) :=
  ⟨(c6_timestamp_failure_is_eof (stOfBytes [])).1 (mapToInvalid (stOfBytes []) .ioError) rfl,
    (c6_timestamp_failure_is_eof (stOfBytes [0])).2 0 { stOfBytes [] with pos := 1 } rfl rfl⟩

/-! ### Theorem for C7 -/

/-- C7: the tokenized-string protocol.  After the varint id is read
(which leaves the token list untouched, so repeated reads of an
already-interned id return byte-for-byte the same string):
`id < tokens.len()` returns `tokens[id]` unchanged; `id == tokens.len()`
reads a null-terminated string, appends it and returns it;
`id > tokens.len()` is a protocol error. -/
theorem c7_tokenized_string (st : DecState) (id : Nat) (st₁ : DecState)
    (h : varintRead st = .ok (id, st₁)) :
    st₁.tokens = st.tokens ∧
      (∀ hlt : id < st₁.tokens.length,
        readTokenizedString st = .ok (st₁.tokens.get ⟨id, hlt⟩, st₁)) ∧
      (id = st₁.tokens.length →
        ∀ s st₂, readString st₁ = .ok (s, st₂) →
          readTokenizedString st = .ok (s, { st₂ with tokens := st₂.tokens ++ [s] })) ∧
      (id > st₁.tokens.length →
        readTokenizedString st = .error (.invalidBinary "Invalid token string ID!" st₁.pos)) := by
  refine ⟨varintRead_tokens h, ?_, ?_, ?_⟩
  · intro hlt
    rw [readTokenizedString, h]
    simp only [dif_pos hlt]
  · intro heq s st₂ hs
    rw [readTokenizedString, h]
    simp only
    rw [dif_neg (by omega), if_pos heq, hs]
  · intro hgt
    rw [readTokenizedString, h]
    simp only
    rw [dif_neg (by omega), if_neg (by omega)]

/-- C7 (witness): reading id `0` against a token list `["abc"]` returns
`"abc"` and leaves the state's dictionaries untouched. -/
theorem c7_tokenized_string_witness :
    readTokenizedString { stOfBytes [0] with tokens := ["abc"] }
      = .ok ("abc", { stOfBytes [] with pos := 1, tokens := ["abc"] }) :=
  (c7_tokenized_string { stOfBytes [0] with tokens := ["abc"] } 0
      { stOfBytes [] with pos := 1, tokens := ["abc"] } rfl).2.1 (by decide)

/-! ### Theorems for C8 -/

/-- C8 (counterexample): `%p` with pointer size 8 does **not** emit
`0x` + 16 hex digits: the Rust format `{:#016x}` counts the `0x` prefix
towards the width 16, so the all-zero pointer renders as `0x` followed
by only 14 hex digits. -/
theorem c8_counterexample :
    walkFormat 3 ['%', 'p'] 0 (stOfBytes [0, 0, 0, 0, 0, 0, 0, 0]) ""
        = .ok ("0x00000000000000", { stOfBytes [] with pos := 8 }) ∧
      "0x00000000000000" ≠ "0x0000000000000000" :=
  ⟨rfl, by decide⟩

/-- C8 (amended): replaying `%p` with pointer size 8 reads a
little-endian u64 and emits it as `{:#016x}`: `0x`-prefixed lowercase
hex zero-padded to a minimum **total** width of 16 characters (prefix
included, so at least 14 hex digits); with pointer size 4 it reads a
little-endian u32 and pads to total width 8 (at least 6 hex digits). -/
theorem c8_pointer_conv (st : DecState) :
    (∀ bs st', st.ptrSize = 8 → readExactIo 8 st = .ok (bs, st') →
        walkFormat 3 ['%', 'p'] 0 st "" = .ok (rustAltHex 16 (leNat bs), st')) ∧
      (∀ bs st', st.ptrSize = 4 → readExactIo 4 st = .ok (bs, st') →
        walkFormat 3 ['%', 'p'] 0 st "" = .ok (rustAltHex 8 (leNat bs), st')) := by
  have hw : ∀ (st : DecState), walkFormat 3 ['%', 'p'] 0 st ""
      = (match applyConv 'p' false false st with
          | .error e => .error e
          | .ok (txt, stₓ) => .ok ("" ++ txt, stₓ)) := fun _ => rfl
  constructor
  · intro bs st' hp hre
    rw [hw, applyConv]
    rw [if_neg (by decide), if_neg (by decide), if_neg (by decide), if_neg (by decide),
      if_neg (by decide), if_neg (by decide), if_pos ⟨rfl, hp⟩, hre]
    rfl
  · intro bs st' hp hre
    rw [hw, applyConv]
    rw [if_neg (by decide), if_neg (by decide), if_neg (by decide), if_neg (by decide),
      if_neg (by decide), if_neg (by decide), if_neg (by simp [hp]), if_pos ⟨rfl, hp⟩, hre]
    rfl

/-- C8 (witness): the amended theorem applied to the pointer
`0x0102030405060708` read little-endian from pointer size 8, and to
`0x01020304` from pointer size 4. -/
theorem c8_pointer_conv_witness :
    walkFormat 3 ['%', 'p'] 0 (stOfBytes [8, 7, 6, 5, 4, 3, 2, 1]) ""
        = .ok (rustAltHex 16 (leNat [8, 7, 6, 5, 4, 3, 2, 1]), { stOfBytes [] with pos := 8 }) ∧
      walkFormat 3 ['%', 'p'] 0 { stOfBytes [4, 3, 2, 1] with ptrSize := 4 } ""
        = .ok (rustAltHex 8 (leNat [4, 3, 2, 1]),
            { stOfBytes [] with pos := 4, ptrSize := 4 }) :=
  ⟨(c8_pointer_conv (stOfBytes [8, 7, 6, 5, 4, 3, 2, 1])).1 _ _ rfl rfl,
    (c8_pointer_conv { stOfBytes [4, 3, 2, 1] with ptrSize := 4 }).2 _ _ rfl rfl⟩

/-! ### Theorem for C10 -/

/-- C10: the message-replay walk is not total.  A stream with a valid
header (magic, version 1, pointer size 8, start time 0) whose single
entry carries the format string `"%"` — `%` as the last character, no
specifier — makes `read_message` access `format_chars[i + 1]` one past
the end of the vector: a panic, not an `InvalidBinaryLogs` error. -/
theorem c10_unterminated_conversion_panics :
    decodeEntries [207, 178, 171, 27, 1, 8, 0, 0, 2, 0, 68, 66, 0, 0, 1, 37, 0]
      = .error .panicked :=
  rfl

/-! ## Build-time event table generation (src/parse/build.rs)

`parse_yaml` deserializes each version range's YAML specification with
`events: BTreeMap<String, Event>` and, per event,
`captures: Option<BTreeMap<String, CaptureType>>` (build.rs:655-660 and
731-736).  A `BTreeMap` iterates in ascending key order, so the
generated `event_from_line` probes events — and serializes capture
fields — in sorted key order, whatever the YAML declaration order was.
`btreeInsert`/`btreeFromList` model building the `BTreeMap` from the
declared entries (later duplicate keys overwrite).  Regex matching and
capture-value extraction are abstracted as functions on the line. -/

/-- Lexicographic order on char lists — `Ord for String` in Rust
(`BTreeMap<String, _>`'s key order): UTF-8 byte-wise comparison, which
coincides with code-point lexicographic comparison. -/
def ltChars : List Char → List Char → Bool
  | [], [] => false
  | [], _ :: _ => true
  | _ :: _, [] => false
  | a :: as, b :: bs => if a < b then true else if b < a then false else ltChars as bs

def strLt (a b : String) : Bool := ltChars a.data b.data

def btreeInsert {α : Type} (k : String) (v : α) : List (String × α) → List (String × α)
  | [] => [(k, v)]
  | (k', v') :: rest =>
    if strLt k k' then (k, v) :: (k', v') :: rest
    else if k = k' then (k, v) :: rest
    else (k', v') :: btreeInsert k v rest

def btreeFromList {α : Type} (l : List (String × α)) : List (String × α) :=
  l.foldl (fun m p => btreeInsert p.1 p.2 m) []

/-- One event of a version range's specification: `regex` (its
match/captures on a line abstracted as functions), the declared captures
(field name ↦ rendered JSON value text for a line), and the
`ignore.is_some_and(|i| i)` flag. -/
structure EventSpec where
  rxMatch : String → Bool
  captures : Option (List (String × (String → String)))
  ignore : Bool

inductive EventErr where
  | ignoredEvent
  | unknownEvent
deriving DecidableEq, Repr

/-- `serde_json::to_string` of the generated capture struct: a JSON
object whose fields appear in the struct's declaration order. -/
def renderJson (fields : List (String × String)) : String :=
  "\x7b" ++ String.intercalate "," (fields.map (fun p => "\"" ++ p.1 ++ "\":" ++ p.2)) ++ "\x7d"

/-- The generated `EventBuilderN::event_from_line` body: one `if` per
event, in the iteration order of the table it was generated from
(build.rs:454-611): `ignore` events fail with `IgnoredEvent` when they
match; capture events serialize their capture struct; bare events yield
no data; falling through every event is `UnknownEvent`. -/
def probeEvents : List (String × EventSpec) → String → Except EventErr (String × Option String)
  | [], _ => .error .unknownEvent
  | (key, ev) :: rest, line =>
    if ev.ignore then
      if ev.rxMatch line then .error .ignoredEvent else probeEvents rest line
    else
      match ev.captures with
      | some caps =>
        if ev.rxMatch line then
          .ok (key, some (renderJson (caps.map (fun c => (c.1, c.2 line)))))
        else probeEvents rest line
      | none =>
        if ev.rxMatch line then .ok (key, none) else probeEvents rest line

/-- The `BTreeMap` view of one declared event: its captures in sorted
key order (as the generated struct declares its fields). -/
def sortSpec (ev : EventSpec) : EventSpec :=
  { ev with captures := ev.captures.map btreeFromList }

/-- The event dispatch the build script generates from a declared
specification: both the event table and each capture table go through a
`BTreeMap`, so probing and field order are ascending key order. -/
def eventFromLine (declared : List (String × EventSpec)) (line : String) :
    Except EventErr (String × Option String) :=
  probeEvents ((btreeFromList declared).map (fun p => (p.1, sortSpec p.2))) line

/-- Modelled from the spec's words, for comparison only: "event probing
order is the declared order in the specification; JSON field order is
the declared capture order" — probe the declared list as-is. -/
def eventFromLineDeclaredOrder (declared : List (String × EventSpec)) (line : String) :
    Except EventErr (String × Option String) :=
  probeEvents declared line

/-! ### `BTreeMap` model lemmas -/

theorem btreeInsert_keys {α : Type} (k : String) (v : α) :
    ∀ (m : List (String × α)) (k' : String),
      k' ∈ (btreeInsert k v m).map Prod.fst ↔ k' = k ∨ k' ∈ m.map Prod.fst := by
  intro m
  induction m with
  | nil => intro k'; simp [btreeInsert]
  | cons hd tl ih =>
    intro k'
    obtain ⟨k1, v1⟩ := hd
    rw [btreeInsert]
    by_cases h1 : strLt k k1 = true
    · rw [if_pos h1]
      simp only [List.map_cons, List.mem_cons]
    · rw [if_neg h1]
      by_cases h2 : k = k1
      · rw [if_pos h2]
        subst h2
        simp only [List.map_cons, List.mem_cons]
        tauto
      · rw [if_neg h2]
        simp only [List.map_cons, List.mem_cons, ih]
        tauto

theorem ltChars_trans : ∀ as bs cs : List Char,
    ltChars as bs = true → ltChars bs cs = true → ltChars as cs = true := by
  intro as
  induction as with
  | nil =>
    intro bs cs h1 h2
    cases bs with
    | nil => exact h2
    | cons b bs' =>
      cases cs with
      | nil => simp [ltChars] at h2
      | cons c cs' => rfl
  | cons a as' ih =>
    intro bs cs h1 h2
    cases bs with
    | nil => simp [ltChars] at h1
    | cons b bs' =>
      cases cs with
      | nil => simp [ltChars] at h2
      | cons c cs' =>
        rw [ltChars] at h1 h2 ⊢
        by_cases hab : a < b
        · by_cases hbc : b < c
          · rw [if_pos (lt_trans hab hbc)]
          · have hcb : ¬ c < b := by
              intro hcb
              rw [if_neg hbc, if_pos hcb] at h2
              exact Bool.false_ne_true h2
            have hbceq : b = c := le_antisymm (not_lt.mp hcb) (not_lt.mp hbc)
            subst hbceq
            rw [if_pos hab]
        · have hba : ¬ b < a := by
            intro hba
            rw [if_neg hab, if_pos hba] at h1
            exact Bool.false_ne_true h1
          have habeq : a = b := le_antisymm (not_lt.mp hba) (not_lt.mp hab)
          subst habeq
          rw [if_neg hab, if_neg hba] at h1
          by_cases hac : a < c
          · rw [if_pos hac]
          · rw [if_neg hac] at h2 ⊢
            have hca : ¬ c < a := by
              intro hca
              rw [if_pos hca] at h2
              exact Bool.false_ne_true h2
            rw [if_neg hca] at h2 ⊢
            exact ih bs' cs' h1 h2

theorem ltChars_trichotomy : ∀ as bs : List Char,
    ltChars as bs = true ∨ as = bs ∨ ltChars bs as = true := by
  intro as
  induction as with
  | nil =>
    intro bs
    cases bs with
    | nil => exact Or.inr (Or.inl rfl)
    | cons b bs' => exact Or.inl rfl
  | cons a as' ih =>
    intro bs
    cases bs with
    | nil => exact Or.inr (Or.inr rfl)
    | cons b bs' =>
      by_cases hab : a < b
      · exact Or.inl (by rw [ltChars, if_pos hab])
      · by_cases hba : b < a
        · exact Or.inr (Or.inr (by rw [ltChars, if_pos hba]))
        · have heq : a = b := le_antisymm (not_lt.mp hba) (not_lt.mp hab)
          subst heq
          rcases ih bs' with h | h | h
          · refine Or.inl ?_
            rw [ltChars, if_neg hab, if_neg hab]
            exact h
          · exact Or.inr (Or.inl (by rw [h]))
          · refine Or.inr (Or.inr ?_)
            rw [ltChars, if_neg hab, if_neg hab]
            exact h

theorem btreeInsert_sorted {α : Type} (k : String) (v : α) :
    ∀ m : List (String × α),
      ((m.map Prod.fst).Pairwise (fun a b => strLt a b = true)) →
      (((btreeInsert k v m).map Prod.fst).Pairwise (fun a b => strLt a b = true)) := by
  intro m
  induction m with
  | nil => intro _; simp [btreeInsert]
  | cons hd tl ih =>
    intro hp
    obtain ⟨k1, v1⟩ := hd
    rw [List.map_cons, List.pairwise_cons] at hp
    obtain ⟨h1all, htl⟩ := hp
    rw [btreeInsert]
    by_cases h1 : strLt k k1 = true
    · rw [if_pos h1]
      simp only [List.map_cons, List.pairwise_cons]
      refine ⟨?_, h1all, htl⟩
      intro b hb
      rcases List.mem_cons.mp hb with rfl | hb'
      · exact h1
      · exact ltChars_trans _ _ _ h1 (h1all b hb')
    · rw [if_neg h1]
      by_cases h2 : k = k1
      · rw [if_pos h2]
        subst h2
        simp only [List.map_cons, List.pairwise_cons]
        exact ⟨h1all, htl⟩
      · rw [if_neg h2]
        simp only [List.map_cons, List.pairwise_cons]
        have hk1k : strLt k1 k = true := by
          rcases ltChars_trichotomy k.data k1.data with h | h | h
          · exact absurd h h1
          · exact absurd (String.ext h) h2
          · exact h
        refine ⟨?_, ih htl⟩
        intro b hb
        rcases (btreeInsert_keys k v tl b).mp hb with rfl | hb'
        · exact hk1k
        · exact h1all b hb'

theorem btreeFromList_go_sorted {α : Type} :
    ∀ (l acc : List (String × α)),
      ((acc.map Prod.fst).Pairwise (fun a b => strLt a b = true)) →
      (((l.foldl (fun m p => btreeInsert p.1 p.2 m) acc).map Prod.fst).Pairwise
        (fun a b => strLt a b = true)) := by
  intro l
  induction l with
  | nil => intro acc h; simpa using h
  | cons hd tl ih =>
    intro acc h
    exact ih _ (btreeInsert_sorted hd.1 hd.2 acc h)

/-- The key list of the `BTreeMap` model is strictly ascending. -/
theorem btreeFromList_sorted {α : Type} (l : List (String × α)) :
    ((btreeFromList l).map Prod.fst).Pairwise (fun a b => strLt a b = true) :=
  btreeFromList_go_sorted l [] (by simp)

theorem btreeFromList_go_keys {α : Type} :
    ∀ (l acc : List (String × α)) (k : String),
      k ∈ ((l.foldl (fun m p => btreeInsert p.1 p.2 m) acc).map Prod.fst) ↔
        k ∈ acc.map Prod.fst ∨ k ∈ l.map Prod.fst := by
  intro l
  induction l with
  | nil => intro acc k; simp
  | cons hd tl ih =>
    intro acc k
    simp only [List.foldl_cons, List.map_cons, List.mem_cons]
    rw [ih, btreeInsert_keys]
    tauto

/-- The `BTreeMap` model preserves the declared key set. -/
theorem btreeFromList_keys {α : Type} (l : List (String × α)) (k : String) :
    k ∈ (btreeFromList l).map Prod.fst ↔ k ∈ l.map Prod.fst := by
  rw [btreeFromList, btreeFromList_go_keys]
  simp

/-! ### Theorems for C4 -/

/-- Example specification declared in non-alphabetical order: event
`"b_event"` (with captures declared `y` before `x`) first, then
`"a_event"`; both regexes match every line. -/
def exampleDecl : List (String × EventSpec) :=
  [("b_event", ⟨fun _ => true, some [("y", fun _ => "1"), ("x", fun _ => "2")], false⟩),
   ("a_event", ⟨fun _ => true, none, false⟩)]

/-- C4 (counterexample): probing is **not** YAML declaration order and
JSON field order is **not** declared capture order.  For a specification
declaring `b_event` (captures `y` then `x`) before `a_event`, with both
regexes matching, declared-order probing would yield `b_event` with JSON
fields `y,x` — but the generated builder (tables routed through
`BTreeMap`s) probes `a_event` first.  Dropping `a_event`'s `if` from the
comparison, the `b_event` JSON fields also come out sorted (`x` before
`y`). -/
theorem c4_counterexample :
    eventFromLine exampleDecl "line" = .ok ("a_event", none) ∧
      eventFromLineDeclaredOrder exampleDecl "line"
        = .ok ("b_event", some (renderJson [("y", "1"), ("x", "2")])) ∧
      eventFromLine exampleDecl "line" ≠ eventFromLineDeclaredOrder exampleDecl "line" ∧
      eventFromLine (exampleDecl.take 1) "line"
        = .ok ("b_event", some (renderJson [("x", "2"), ("y", "1")])) :=
  ⟨rfl, rfl, by decide, rfl⟩

/-- C4 (amended): the generated builder probes events in ascending
lexicographic key order (the key set is the declared one), and each
matched event's JSON field order is ascending lexicographic capture-name
order; declaration order is respected only when it is already sorted.
Both orders are deterministic, so the "stable across runs" part of the
claim stands. -/
theorem c4_sorted_probe_order (declared : List (String × EventSpec)) (line : String) :
    eventFromLine declared line
        = eventFromLineDeclaredOrder
            ((btreeFromList declared).map (fun p => (p.1, sortSpec p.2))) line ∧
      (((btreeFromList declared).map Prod.fst).Pairwise (fun a b => strLt a b = true)) ∧
      (∀ k, k ∈ (btreeFromList declared).map Prod.fst ↔ k ∈ declared.map Prod.fst) ∧
      (∀ caps : List (String × (String → String)),
        ((btreeFromList caps).map Prod.fst).Pairwise (fun a b => strLt a b = true)) :=
  ⟨rfl, btreeFromList_sorted declared, btreeFromList_keys declared,
    fun caps => btreeFromList_sorted caps⟩

/-! ## Format probe (generated `patterns_for_file`, src/parse/build.rs:45-108)

The generated probe loops over the catalog's pattern sets (the
`RangeMap` iterates ranges in ascending order — a list here), over the
file's lines, and over each set's platforms, taking the first `ver`
capture of a `version` regex; the capture `"3.2"` is coerced to
`"3.2.0"` before semver parsing, and the dispatch then re-looks-up the
pattern set by version and re-scans the same line for a platform.
Regexes are abstracted: a platform's version regex plus its `ver`
capture is a function `String → Option String`. -/

structure SemVer where
  major : Nat
  minor : Nat
  patch : Nat
deriving DecidableEq, Repr

/-- Lexicographic `semver::Version` order (numeric core; no pre-release). -/
def verLt (a b : SemVer) : Bool :=
  a.major < b.major ∨ (a.major = b.major ∧
    (a.minor < b.minor ∨ (a.minor = b.minor ∧ a.patch < b.patch)))

def verLe (a b : SemVer) : Bool := verLt a b ∨ a = b

/-- Split a char list on `'.'` (`str::split('.')`). -/
def splitOnDot : List Char → List (List Char)
  | [] => [[]]
  | c :: rest =>
    if c = '.' then [] :: splitOnDot rest
    else
      match splitOnDot rest with
      | [] => [[c]]
      | g :: gs => (c :: g) :: gs

def digitsValGo : List Char → Nat → Option Nat
  | [], acc => some acc
  | c :: rest, acc =>
    if c.isDigit then digitsValGo rest (acc * 10 + (c.toNat - 48)) else none

/-- A non-empty all-digit numeric component. -/
def digitsVal : List Char → Option Nat
  | [] => none
  | cs => digitsValGo cs 0

/-- `semver::Version::parse` restricted to its numeric core
`MAJOR.MINOR.PATCH` (the corpus carries no pre-release/build metadata;
in particular a two-component string such as `"3.2"` fails to parse,
which is what makes the coercion necessary). -/
def parseVersion (s : String) : Option SemVer :=
  match (splitOnDot s.data).map digitsVal with
  | [some x, some y, some z] => some ⟨x, y, z⟩
  | _ => none

/-- A platform sub-variant: its `version` regex with the `ver` named
capture, abstracted as the capture it produces on a line (if any). -/
structure PlatformPat where
  versionCapture : String → Option String

/-- One `VersionRange → PatternSet` catalog entry: the `[from, to)`
range and the set's platforms (the set's object/event tables play no
role in the probe). -/
structure RangeEntry where
  fromVer : SemVer
  toVer : SemVer
  platforms : List PlatformPat

inductive ProbeErr where
  | notLogs
  | semverErr
  | unsupportedVersion (v : SemVer)
  | unsupportedPlatform (line : String)

/-- The inner platform loop of `patterns_for_file`: first platform whose
version regex captures on the line. -/
def scanSet : List PlatformPat → String → Option String
  | [], _ => none
  | p :: rest, line =>
    match p.versionCapture line with
    | some s => some s
    | none => scanSet rest line

/-- The line loop: first line any platform of the set captures on. -/
def scanLines (platforms : List PlatformPat) : List String → Option (String × String)
  | [] => none
  | l :: rest =>
    match scanSet platforms l with
    | some s => some (l, s)
    | none => scanLines platforms rest

/-- The outer pattern-set loop. -/
def findVersionLine : List RangeEntry → List String → Option (String × String)
  | [], _ => none
  | e :: rest, lines =>
    match scanLines e.platforms lines with
    | some r => some r
    | none => findVersionLine rest lines

/-- `PATTERNS_MAP.get(&version)`: the ranges are non-overlapping, so the
`RangeMap` lookup is the first entry whose `[from, to)` contains `v`. -/
def rangeLookup (catalog : List RangeEntry) (v : SemVer) : Option RangeEntry :=
  catalog.find? (fun e => verLe e.fromVer v && verLt v e.toVer)

/-- The platform re-scan of `pattern_for_version`. -/
def rescanPlatform (platforms : List PlatformPat) (line : String) : Option PlatformPat :=
  platforms.find? (fun p => (p.versionCapture line).isSome)

/-- `pattern_for_version` (build.rs:86-108): range lookup, then the
first matching platform of that set; the result models
`Patterns::from_strings(pattern, platform)`. -/
def patternForVersion (catalog : List RangeEntry) (line : String) (v : SemVer) :
    Except ProbeErr (RangeEntry × PlatformPat) :=
  match rangeLookup catalog v with
  | none => .error (.unsupportedVersion v)
  | some e =>
    match rescanPlatform e.platforms line with
    | some pl => .ok (e, pl)
    | none => .error (.unsupportedPlatform line)

/-- `patterns_for_file` (build.rs:45-84): scan for the first version
capture; coerce the literal `"3.2"` to `"3.2.0"`; parse as semver;
dispatch through `pattern_for_version`. -/
def patternsForFile (catalog : List RangeEntry) (lines : List String) :
    Except ProbeErr ((RangeEntry × PlatformPat) × SemVer) :=
  match findVersionLine catalog lines with
  | none => .error .notLogs
  | some (line, verStr) =>
    let verStr' := if verStr = "3.2" then "3.2.0" else verStr
    match parseVersion verStr' with
    | none => .error .semverErr
    | some v =>
      match patternForVersion catalog line v with
      | .error e => .error e
      | .ok p => .ok (p, v)

theorem rangeLookup_mem {catalog : List RangeEntry} {v : SemVer} {e : RangeEntry}
    (h : rangeLookup catalog v = some e) :
    e ∈ catalog ∧ verLe e.fromVer v = true ∧ verLt v e.toVer = true := by
  have hp := List.find?_some h
  simp only [Bool.and_eq_true] at hp
  exact ⟨List.mem_of_find?_eq_some h, hp.1, hp.2⟩

/-! ### Theorems for C9 -/

/-- C9: if the first matching version capture of the scan is the literal
`"3.2"`, the probe behaves exactly as if the capture had been `"3.2.0"`:
the resolved version is `3.2.0` and the file is dispatched via
`pattern_for_version` at `3.2.0` — whose chosen pattern set, whenever
the dispatch succeeds, is a catalog entry whose range `[from, to)`
contains `3.2.0`, with a platform of that set that matches the version
line. -/
theorem c9_version_coercion (catalog : List RangeEntry) (lines : List String) (line : String)
    (h : findVersionLine catalog lines = some (line, "3.2")) :
    patternsForFile catalog lines
        = (patternForVersion catalog line ⟨3, 2, 0⟩).map (fun p => (p, ⟨3, 2, 0⟩)) ∧
      (∀ e pl, patternForVersion catalog line ⟨3, 2, 0⟩ = .ok (e, pl) →
        e ∈ catalog ∧ verLe e.fromVer ⟨3, 2, 0⟩ = true ∧ verLt ⟨3, 2, 0⟩ e.toVer = true ∧
          pl ∈ e.platforms ∧ (pl.versionCapture line).isSome = true) := by
  constructor
  · rw [patternsForFile, h]
    show (match patternForVersion catalog line (SemVer.mk 3 2 0) with
          | Except.error e => Except.error e
          | Except.ok p => Except.ok (p, SemVer.mk 3 2 0))
        = (patternForVersion catalog line (SemVer.mk 3 2 0)).map
            (fun p => (p, SemVer.mk 3 2 0))
    cases hpv : patternForVersion catalog line ⟨3, 2, 0⟩ <;> simp [Except.map]
  · intro e pl hok
    cases hr : rangeLookup catalog ⟨3, 2, 0⟩ with
    | none =>
      rw [patternForVersion, hr] at hok
      exact Except.noConfusion hok
    | some e' =>
      cases hs : rescanPlatform e'.platforms line with
      | none =>
        simp only [patternForVersion, hr, hs] at hok
        exact Except.noConfusion hok
      | some pl' =>
        simp only [patternForVersion, hr, hs, Except.ok.injEq, Prod.mk.injEq] at hok
        obtain ⟨rfl, rfl⟩ := hok
        obtain ⟨hmem, hle, hlt⟩ := rangeLookup_mem hr
        refine ⟨hmem, hle, hlt, List.mem_of_find?_eq_some hs, ?_⟩
        simpa using List.find?_some hs

/-- Example catalog for the C9 witness: one pattern set covering
`[3.1.0, 3.3.0)` whose single platform captures `"3.2"` on the line
`"vline"`. -/
def examplePlatform : PlatformPat :=
  ⟨fun l => if l = "vline" then some "3.2" else none⟩

def exampleEntry : RangeEntry := ⟨⟨3, 1, 0⟩, ⟨3, 3, 0⟩, [examplePlatform]⟩

/-- C9 (witness): on the example catalog, a file whose version line
captures the literal `"3.2"` resolves to version `3.2.0` and is
dispatched to the (unique) pattern set whose range contains `3.2.0`. -/
theorem c9_version_coercion_witness :
    patternsForFile [exampleEntry] ["junk", "vline"]
      = .ok ((exampleEntry, examplePlatform), ⟨3, 2, 0⟩) := by
  have h := (c9_version_coercion [exampleEntry] ["junk", "vline"] "vline" rfl).1
  rw [h]
  rfl

end Lumberjack
